import Mathlib

/-!
Shallow embedding of the resilient-invocation examples of the
documentation repository: the retry wrapper (`RetryableVantigeClient`),
the circuit breaker (`CircuitBreakerClient`), the response cache
(`CachedVantigeClient`), the monitoring wrapper (`MonitoredVantigeClient`)
and their composition, together with proofs of the behavioural claims.

Conventions: JS numbers holding millisecond counts and error codes are
modelled as `ℕ`; quantities where fractions matter (jitter factor from
`Math.random()`, the computed delay, the error rate) as `ℚ`; `Date.now()`
is passed in explicitly as a `ℕ` parameter; the inner (remote) operation
is an oracle parameter supplying each attempt's outcome.
-/

namespace VantigeResilience

/-- Opaque successful response value (`QueryResponse` is never inspected
by the resilience layers). -/
abbrev Response := ℕ

/-- Model of `QueryParams` from the SDK docs: `corpusId`, `query`, optional `limit`,
optional `generateAnswer`. -/
structure QueryParams where
  corpusId : String
  query : String
  limit : Option ℕ
  generateAnswer : Option Bool
deriving DecidableEq, Repr

/-- Errors observed by the retry wrapper: either a `VantigeSDKError`
(numeric `code`, optional `details.retryAfter` in seconds) or a non-SDK
environment error carrying an optional string `code`. -/
inductive RetryError where
  | sdk (code : ℕ) (retryAfter : Option ℚ)
  | env (code : Option String)
deriving DecidableEq, Repr

/-- The numeric-seconds retry hint carried by an error, if any
(`error.details?.retryAfter`). -/
def errRetryAfter : RetryError → Option ℚ
  | .sdk _ ra => ra
  | .env _ => none

/-- Model of `RetryOptions`, with all fields required (the merge with
`defaultOptions` always yields all fields). -/
structure RetryOptions where
  maxRetries : ℕ
  initialDelay : ℕ
  maxDelay : ℕ
  backoffMultiplier : ℕ
  retryableErrors : List ℕ
deriving DecidableEq, Repr

/-- The `defaultOptions` of `RetryableVantigeClient`. -/
def defaultRetryOptions : RetryOptions :=
  { maxRetries := 3
    initialDelay := 1000
    maxDelay := 30000
    backoffMultiplier := 2
    retryableErrors := [429, 500, 502, 503, 504] }

/-- Model of `RetryableVantigeClient.isRetryable`: a non-SDK error is retryable
iff its `code` is `ECONNRESET`, `ETIMEDOUT` or `ENOTFOUND`; an SDK error
iff its numeric code is in `retryableErrors`. -/
def isRetryable (e : RetryError) (retryableErrors : List ℕ) : Bool :=
  match e with
  | .env c => c = some "ECONNRESET" || c = some "ETIMEDOUT" || c = some "ENOTFOUND"
  | .sdk code _ => retryableErrors.contains code

/-- The exponential-backoff-with-jitter branch of `calculateDelay`:
`Math.floor(min(initialDelay * backoffMultiplier^attempt, maxDelay) + jitter)`
with `jitter = rand * 0.3 * exponentialDelay`, `rand` standing for the
`Math.random()` draw. -/
def backoffDelay (attempt : ℕ) (opts : RetryOptions) (rand : ℚ) : ℚ :=
  let exponentialDelay : ℕ := min (opts.initialDelay * opts.backoffMultiplier ^ attempt) opts.maxDelay
  let jitter : ℚ := rand * (3 / 10) * (exponentialDelay : ℚ)
  ((⌊(exponentialDelay : ℚ) + jitter⌋ : ℤ) : ℚ)

/-- Model of `RetryableVantigeClient.calculateDelay`: the server-provided hint
`retryAfter * 1000` is used only when the error is an SDK error with
`code === 429` and a truthy (present, nonzero) `details.retryAfter`;
otherwise exponential backoff with jitter applies. -/
def calculateDelay (attempt : ℕ) (e : RetryError) (opts : RetryOptions) (rand : ℚ) : ℚ :=
  match e with
  | .sdk code (some ra) =>
      if code = 429 ∧ ra ≠ 0 then ra * 1000 else backoffDelay attempt opts rand
  | _ => backoffDelay attempt opts rand

/-- The retry loop of `RetryableVantigeClient.query`, with `results i`
the outcome of the `i`-th inner invocation and `fuel` the number of
retries still allowed (`opts.maxRetries - attempt`). Returns the number
of inner invocations performed and the final outcome. -/
def retryAttempts (opts : RetryOptions) (results : ℕ → Except RetryError Response) :
    ℕ → ℕ → ℕ × Except RetryError Response
  | attempt, fuel =>
    match results attempt with
    | .ok r => (1, .ok r)
    | .error e =>
      if isRetryable e opts.retryableErrors then
        match fuel with
        | 0 => (1, .error e)
        | fuel + 1 =>
          let rest := retryAttempts opts results (attempt + 1) fuel
          (rest.1 + 1, rest.2)
      else (1, .error e)

/-- Model of `RetryableVantigeClient.query`: attempts `0 .. maxRetries` inclusive. -/
def retryQuery (opts : RetryOptions) (results : ℕ → Except RetryError Response) :
    ℕ × Except RetryError Response :=
  retryAttempts opts results 0 opts.maxRetries

/-! ### Circuit breaker (`CircuitBreakerClient`) -/

/-- Model of `CircuitState`: CLOSED, OPEN, HALF_OPEN. -/
inductive CircuitState where
  | closed
  | open
  | halfOpen
deriving DecidableEq, Repr

/-- Model of `CircuitBreakerOptions`, all fields required after the merge with the
defaults. -/
structure CircuitBreakerOptions where
  failureThreshold : ℕ
  resetTimeout : ℕ
  monitoringPeriod : ℕ
deriving DecidableEq, Repr

/-- The default `CircuitBreakerClient` options. -/
def defaultCBOptions : CircuitBreakerOptions :=
  { failureThreshold := 5, resetTimeout := 60000, monitoringPeriod := 60000 }

/-- The mutable fields of `CircuitBreakerClient`. -/
structure CBState where
  state : CircuitState
  failures : ℕ
  lastFailureTime : Option ℕ
  successCount : ℕ
deriving DecidableEq, Repr

/-- The initial circuit-breaker state. -/
def initialCBState : CBState :=
  { state := .closed, failures := 0, lastFailureTime := none, successCount := 0 }

/-- Model of `shouldAttemptReset`: the last failure exists and lies at least
`resetTimeout` in the past. -/
def shouldAttemptReset (opts : CircuitBreakerOptions) (now : ℕ) (cb : CBState) : Bool :=
  match cb.lastFailureTime with
  | none => false
  | some t => opts.resetTimeout ≤ now - t

/-- Model of `CircuitBreakerClient.onSuccess`: reset the failure counter; in
HALF_OPEN, count successes and close after 3 of them. -/
def onSuccess (cb : CBState) : CBState :=
  let cb1 := { cb with failures := 0 }
  if cb1.state = .halfOpen then
    let sc := cb1.successCount + 1
    if 3 ≤ sc then { cb1 with state := .closed, successCount := 0 }
    else { cb1 with successCount := sc }
  else cb1

/-- Model of `CircuitBreakerClient.onFailure`: record the failure time, zero the
success counter; a HALF_OPEN failure reopens immediately, otherwise the
failure counter is incremented and reaching `failureThreshold` opens the
circuit. -/
def onFailure (opts : CircuitBreakerOptions) (now : ℕ) (cb : CBState) : CBState :=
  let cb1 := { cb with lastFailureTime := some now, successCount := 0 }
  if cb1.state = .halfOpen then { cb1 with state := .open }
  else
    let f := cb1.failures + 1
    if opts.failureThreshold ≤ f then { cb1 with state := .open, failures := f }
    else { cb1 with failures := f }

/-- Observable outcome of one `CircuitBreakerClient.query` call. -/
inductive CBResult where
  | rejected
  | ok (r : Response)
  | err
deriving DecidableEq, Repr

/-- Model of `CircuitBreakerClient.query`: an OPEN circuit either rejects the call
(without invoking the inner client) or, when `shouldAttemptReset`, moves
to HALF_OPEN and attempts it; otherwise the inner client is invoked and
`onSuccess` / `onFailure` applied. The third component records whether
the inner operation was invoked. -/
def cbQuery (opts : CircuitBreakerOptions) (now : ℕ) (inner : Except Unit Response)
    (cb : CBState) : CBResult × CBState × Bool :=
  if cb.state = .open ∧ ¬ shouldAttemptReset opts now cb then
    (.rejected, cb, false)
  else
    let cb1 := if cb.state = .open then { cb with state := .halfOpen } else cb
    match inner with
    | .ok r => (.ok r, onSuccess cb1, true)
    | .error _ => (.err, onFailure opts now cb1, true)

/-- Folding a list of (time, inner outcome) calls through the breaker. -/
def cbRun (opts : CircuitBreakerOptions) (calls : List (ℕ × Except Unit Response))
    (cb : CBState) : CBState :=
  calls.foldl (fun s c => (cbQuery opts c.1 c.2 s).2.1) cb

/-! ### Monitoring (`MonitoredVantigeClient`) -/

/-- Model of `ErrorMetrics`: total errors, per-code counts, rolling error rate,
last error (code, message, timestamp). -/
structure ErrorMetrics where
  totalErrors : ℕ
  errorsByCode : List (ℕ × ℕ)
  errorRate : ℚ
  lastError : Option (ℕ × String × ℕ)
deriving DecidableEq, Repr

/-- The mutable fields of `MonitoredVantigeClient`. -/
structure MonState where
  metrics : ErrorMetrics
  requests : ℕ
deriving DecidableEq, Repr

/-- The initial monitoring state. -/
def initialMonState : MonState :=
  { metrics := { totalErrors := 0, errorsByCode := [], errorRate := 0, lastError := none }
    requests := 0 }

/-- Outcome of one monitored call: a success, a `VantigeSDKError` with
numeric code and message, or a failure that is not a `VantigeSDKError`
(its payload is irrelevant to the metrics, which never inspect it). -/
inductive MonOutcome where
  | success (r : Response)
  | failure (code : ℕ) (msg : String)
  | envFailure
deriving DecidableEq, Repr

/-- Model of `errorsByCode.set(code, (get(code) || 0) + 1)` on the association
list modelling the `Map`. -/
def bumpCode (code : ℕ) : List (ℕ × ℕ) → List (ℕ × ℕ)
  | [] => [(code, 1)]
  | p :: rest => if p.1 = code then (p.1, p.2 + 1) :: rest else p :: bumpCode code rest

/-- Model of `MonitoredVantigeClient.updateErrorRate`:
`errorRate = totalErrors / min(requests, windowSize)` when the
denominator is positive. -/
def updateErrorRate (windowSize : ℕ) (s : MonState) : MonState :=
  let recentRequests := min s.requests windowSize
  if 0 < recentRequests then
    { s with metrics := { s.metrics with
        errorRate := (s.metrics.totalErrors : ℚ) / (recentRequests : ℚ) } }
  else s

/-- Model of `MonitoredVantigeClient.recordError`: increment `totalErrors` and the
per-code count, set `lastError`, then recompute the error rate. -/
def recordError (windowSize : ℕ) (now : ℕ) (code : ℕ) (msg : String) (s : MonState) : MonState :=
  let s1 := { s with metrics := { s.metrics with
      totalErrors := s.metrics.totalErrors + 1
      errorsByCode := bumpCode code s.metrics.errorsByCode
      lastError := some (code, msg, now) } }
  updateErrorRate windowSize s1

/-- One `MonitoredVantigeClient.query` call: `requests++`, then on success
`updateErrorRate`, on an SDK failure `recordError`; a failure that is not
a `VantigeSDKError` falls outside the `instanceof` guard of the catch
block, so it is re-raised with only the request counter bumped —
`totalErrors` and `errorRate` are left untouched. -/
def monStep (windowSize : ℕ) (now : ℕ) (o : MonOutcome) (s : MonState) : MonState :=
  let s1 := { s with requests := s.requests + 1 }
  match o with
  | .success _ => updateErrorRate windowSize s1
  | .failure code msg => recordError windowSize now code msg s1
  | .envFailure => s1

/-- Folding a list of (time, outcome) monitored calls from the initial
state. -/
def monRun (windowSize : ℕ) (calls : List (ℕ × MonOutcome)) : MonState :=
  calls.foldl (fun s c => monStep windowSize c.1 c.2 s) initialMonState

/-- The number of failed calls (classified or not) in a list of
monitored calls. -/
def monFailures (calls : List (ℕ × MonOutcome)) : ℕ :=
  calls.countP (fun c => match c.2 with | .success _ => false | _ => true)

/-- Model of `MonitoredVantigeClient.getHealthStatus`. -/
def getHealthStatus (s : MonState) : String :=
  if s.metrics.errorRate < 1 / 100 then "healthy"
  else if s.metrics.errorRate < 1 / 10 then "degraded"
  else "unhealthy"

/-! ### Cache (`CachedVantigeClient`)

The JS `Map` is modelled as an association list in insertion order:
`set` of a present key updates in place, `set` of a new key appends,
`delete` removes, and `forEach` visits in list order — the `Map`
iteration-order semantics. -/

/-- Model of `CacheEntry`: response, creation timestamp, hit counter. -/
structure CacheEntry where
  response : Response
  timestamp : ℕ
  hits : ℕ
deriving DecidableEq, Repr

/-- The cache `Map` in insertion order. -/
abbrev CacheState := List (String × CacheEntry)

/-- Model of `cacheTimeout = 5 * 60 * 1000`. -/
def cacheTimeout : ℕ := 5 * 60 * 1000

/-- Model of `maxCacheSize = 100`. -/
def maxCacheSize : ℕ := 100

/-- Model of `Map.get`. -/
def mapGet (k : String) (s : CacheState) : Option CacheEntry :=
  (s.find? (fun p => p.1 = k)).map Prod.snd

/-- Model of `Map.set`: update in place when the key is present, append otherwise. -/
def mapSet (k : String) (v : CacheEntry) (s : CacheState) : CacheState :=
  if s.any (fun p => p.1 = k) then
    s.map (fun p => if p.1 = k then (k, v) else p)
  else s ++ [(k, v)]

/-- Model of `Map.delete`. -/
def eraseKey (k : String) (s : CacheState) : CacheState :=
  s.filter (fun p => p.1 ≠ k)

/-- Model of `cached.hits++` on the entry stored under `k`. -/
def bumpHits (k : String) (s : CacheState) : CacheState :=
  s.map (fun p => if p.1 = k then (p.1, { p.2 with hits := p.2.hits + 1 }) else p)

/-- A JSON string literal (quoting only; the quoted fields never contain
characters needing escapes in the scenarios considered). -/
def jsonString (s : String) : String := "\"" ++ s ++ "\""

/-- Model of `CachedVantigeClient.getCacheKey`: `JSON.stringify` of the normalized
fields, in declaration order, omitting absent optional fields. -/
def getCacheKey (p : QueryParams) : String :=
  "\x7b\"corpusId\":" ++ jsonString p.corpusId ++
  ",\"query\":" ++ jsonString (p.query.toLower.trim) ++
  (match p.limit with
   | none => ""
   | some n => ",\"limit\":" ++ toString n) ++
  (match p.generateAnswer with
   | none => ""
   | some b => ",\"generateAnswer\":" ++ toString b) ++ "\x7d"

/-- Model of `CachedVantigeClient.isCacheValid`: `Date.now() - timestamp < cacheTimeout`. -/
def isCacheValid (now : ℕ) (e : CacheEntry) : Bool :=
  now - e.timestamp < cacheTimeout

/-- The utility score minimised by `findLRUKey`:
`entry.hits * 10000 + (Date.now() - entry.timestamp)`. -/
def score (now : ℕ) (e : CacheEntry) : ℤ :=
  (e.hits : ℤ) * 10000 + ((now : ℤ) - (e.timestamp : ℤ))

/-- The `forEach` fold inside `findLRUKey`: keep the current candidate
`(key, minHits)` unless a strictly smaller score appears. -/
def minScoreAux (now : ℕ) : List (String × CacheEntry) → String × ℤ → String × ℤ
  | [], acc => acc
  | p :: rest, acc =>
    if score now p.2 < acc.2 then minScoreAux now rest (p.1, score now p.2)
    else minScoreAux now rest acc

/-- Model of `CachedVantigeClient.findLRUKey`: `minHits` starts at `Infinity`, so
the first entry always becomes the initial candidate. -/
def findLRUKey (now : ℕ) (s : CacheState) : Option String :=
  match s with
  | [] => none
  | p :: rest => some (minScoreAux now rest (p.1, score now p.2)).1

/-- Model of `CachedVantigeClient.updateCache`: evict the `findLRUKey` entry when
at capacity (the `if (lruKey)` truthiness check skips the empty-string
key), then store the fresh entry with `hits := 0`. -/
def updateCache (now : ℕ) (k : String) (resp : Response) (s : CacheState) : CacheState :=
  let s1 :=
    if maxCacheSize ≤ s.length then
      match findLRUKey now s with
      | some lru => if lru ≠ "" then eraseKey lru s else s
      | none => s
    else s
  mapSet k { response := resp, timestamp := now, hits := 0 } s1

/-- Observable outcome of one `CachedVantigeClient.query` call. -/
structure CacheQueryResult where
  result : Except Unit Response
  state : CacheState
  innerCalled : Bool
deriving Repr

/-- Model of `CachedVantigeClient.query`: a fresh entry is served from the cache
with its hit counter incremented; otherwise the inner client is invoked
and, on success, the cache is updated (failures leave it untouched and
propagate). -/
def cacheQuery (now : ℕ) (p : QueryParams) (inner : Except Unit Response)
    (s : CacheState) : CacheQueryResult :=
  let key := getCacheKey p
  match mapGet key s with
  | some e =>
    if isCacheValid now e then
      { result := .ok e.response, state := bumpHits key s, innerCalled := false }
    else
      match inner with
      | .ok r => { result := .ok r, state := updateCache now key r s, innerCalled := true }
      | .error u => { result := .error u, state := s, innerCalled := true }
  | none =>
    match inner with
    | .ok r => { result := .ok r, state := updateCache now key r s, innerCalled := true }
    | .error u => { result := .error u, state := s, innerCalled := true }

/-- Folding a list of (time, params, inner outcome) calls from the empty
cache. -/
def cacheRun (calls : List (ℕ × QueryParams × Except Unit Response)) : CacheState :=
  calls.foldl (fun s c => (cacheQuery c.1 c.2.1 c.2.2 s).state) []

/-! ### Composition (`Complete Error Handling Example`) -/

/-- A client expression: the base `VantigeClient` or one of the four
resilience wrappers applied to an inner client. -/
inductive ClientExpr where
  | base
  | retryL (inner : ClientExpr)
  | cbL (inner : ClientExpr)
  | monL (inner : ClientExpr)
  | cacheL (inner : ClientExpr)
deriving DecidableEq, Repr

/-- Model of `const vantigeClient = new VantigeClient({...})`. -/
def vantigeClient : ClientExpr := .base

/-- Model of `const retryableClient = new RetryableVantigeClient(vantigeClient)`. -/
def retryableClient : ClientExpr := .retryL vantigeClient

/-- Model of `const circuitBreakerClient = new CircuitBreakerClient(retryableClient)`. -/
def circuitBreakerClient : ClientExpr := .cbL retryableClient

/-- Model of `const monitoredClient = new MonitoredVantigeClient(circuitBreakerClient)`. -/
def monitoredClient : ClientExpr := .monL circuitBreakerClient

/-- Model of `const cachedClient = new CachedVantigeClient(monitoredClient)`: the
full wrap chain of the example. -/
def cachedClient : ClientExpr := .cacheL monitoredClient

/-- The composition the spec describes: Monitoring wraps CircuitBreaker
wraps Retry wraps Cache wraps the base operation. Stated from the spec's
words, for comparison with the source's `cachedClient`. -/
def specOrderedClient : ClientExpr := .monL (.cbL (.retryL (.cacheL .base)))

/-! ## Helper lemmas -/

/-- The retry loop under an all-retryable-failures oracle runs
`fuel + 1` invocations starting at `attempt` and ends with the outcome
of the last attempt. -/
lemma retryAttempts_all_fail (opts : RetryOptions) (results : ℕ → Except RetryError Response) :
    ∀ (fuel attempt : ℕ),
      (∀ i, attempt ≤ i → i ≤ attempt + fuel →
        ∃ e, results i = .error e ∧ isRetryable e opts.retryableErrors = true) →
      retryAttempts opts results attempt fuel = (fuel + 1, results (attempt + fuel)) := by
  intro fuel
  induction fuel with
  | zero =>
    intro attempt h
    obtain ⟨e, he, hr⟩ := h attempt le_rfl (by omega)
    rw [retryAttempts, he]
    simp [hr, he]
  | succ fuel ih =>
    intro attempt h
    obtain ⟨e, he, hr⟩ := h attempt le_rfl (by omega)
    have hrec := ih (attempt + 1) (fun i h1 h2 => h i (by omega) (by omega))
    rw [retryAttempts, he]
    simp only [hr, if_true, hrec]
    rw [show attempt + 1 + fuel = attempt + (fuel + 1) from by omega]

/-! ## Claim theorems -/

/-- Claim C1, counterexample: The composed client of the complete example is
not the spec's order Monitoring → CircuitBreaker → Retry → Cache → base:
in the source, `cachedClient` wraps `monitoredClient`, not the other way
around. -/
theorem composition_order_spec_counterexample : cachedClient ≠ specOrderedClient := by
  decide

/-- Claim C1, amended: The composed resilient client of the example wraps
in the order Cache → Monitoring → CircuitBreaker → Retry → base: the
composed client equals `cache(monitoring(circuitBreaker(retry(base))))`. -/
theorem composition_order_actual :
    cachedClient = .cacheL (.monL (.cbL (.retryL .base))) := rfl

/-- Claim C3: Under any configuration: when every attempt fails with a
retryable error, the inner operation is invoked exactly `maxRetries + 1`
times and the error of the last attempt is raised; when the first
failure is not retryable, exactly one invocation occurs and that error
propagates. -/
theorem retry_invocation_count (opts : RetryOptions)
    (results : ℕ → Except RetryError Response) :
    ((∀ i, i ≤ opts.maxRetries →
        ∃ e, results i = .error e ∧ isRetryable e opts.retryableErrors = true) →
      (retryQuery opts results).1 = opts.maxRetries + 1 ∧
      (retryQuery opts results).2 = results opts.maxRetries)
    ∧ (∀ e, results 0 = .error e → isRetryable e opts.retryableErrors = false →
        retryQuery opts results = (1, .error e)) := by
  constructor
  · intro h
    have := retryAttempts_all_fail opts results opts.maxRetries 0
      (fun i h1 h2 => h i (by omega))
    rw [retryQuery, this]
    simp
  · intro e he hr
    rw [retryQuery, retryAttempts, he]
    simp [hr]

/-- Witness for `retry_invocation_count`: with the default options, an
oracle failing every time with a retryable 503 yields 4 invocations and
surfaces that error; an oracle whose first error is a non-retryable 404
yields one invocation. -/
theorem retry_invocation_count_witness :
    ((retryQuery defaultRetryOptions (fun _ => .error (.sdk 503 none))).1 = 3 + 1 ∧
      (retryQuery defaultRetryOptions (fun _ => .error (.sdk 503 none))).2 =
        .error (.sdk 503 none)) ∧
    retryQuery defaultRetryOptions (fun _ => .error (.sdk 404 none)) =
      (1, .error (.sdk 404 none)) := by
  refine ⟨(retry_invocation_count defaultRetryOptions _).1 ?_,
    (retry_invocation_count defaultRetryOptions _).2 (.sdk 404 none) rfl (by decide)⟩
  intro i _
  exact ⟨.sdk 503 none, rfl, by decide⟩

/-- Claim C4, counterexample: A retryable classified 500 error carrying
`retryAfter = 2` does not get the hinted delay: `calculateDelay` honours
the hint only for code 429, so at attempt 0 with default options and a
zero jitter draw the delay is 1000 ms, not 2000 ms. -/
theorem retry_after_hint_class_counterexample :
    errRetryAfter (.sdk 500 (some 2)) = some 2 ∧
    isRetryable (.sdk 500 (some 2)) defaultRetryOptions.retryableErrors = true ∧
    calculateDelay 0 (.sdk 500 (some 2)) defaultRetryOptions 0 = 1000 ∧
    (1000 : ℚ) ≠ 2 * 1000 := by
  refine ⟨rfl, by decide, ?_, by norm_num⟩
  show backoffDelay 0 defaultRetryOptions 0 = 1000
  simp [backoffDelay, defaultRetryOptions]

/-- Claim C4, amended: For a rate-limited (code 429) classified error
carrying a nonzero `retryAfter` hint, the computed delay equals
`retryAfter * 1000` exactly, overriding backoff, with no jitter added —
but only for code 429; other classes use the backoff formula even when
they carry a hint. -/
theorem retry_after_hint_429 (attempt : ℕ) (opts : RetryOptions) (rand : ℚ)
    (ra : ℚ) (hra : ra ≠ 0) :
    calculateDelay attempt (.sdk 429 (some ra)) opts rand = ra * 1000 := by
  rw [calculateDelay]
  simp [hra]

/-- Witness for `retry_after_hint_429`: a 429 with `retryAfter = 2`
yields a 2000 ms delay whatever the jitter draw. -/
theorem retry_after_hint_429_witness :
    (2 : ℚ) ≠ 0 ∧
    calculateDelay 1 (.sdk 429 (some 2)) defaultRetryOptions (1 / 2) = 2 * 1000 :=
  ⟨by norm_num, retry_after_hint_429 1 defaultRetryOptions (1 / 2) 2 (by norm_num)⟩

/-- Claim C8, counterexample: A non-classified failure with code `EPIPE` is
not treated as retryable: it is propagated immediately with a single
inner invocation, contrary to the claim that every unclassified failure
consumes a retry attempt. -/
theorem unclassified_error_counterexample :
    isRetryable (.env (some "EPIPE")) defaultRetryOptions.retryableErrors = false ∧
    (retryQuery defaultRetryOptions (fun _ => .error (.env (some "EPIPE")))).1 = 1 ∧
    (retryQuery defaultRetryOptions (fun _ => .error (.env (some "EPIPE")))).2 =
      .error (.env (some "EPIPE")) := by
  refine ⟨by decide, ?_, ?_⟩ <;> rfl

/-- Claim C8, amended: A non-classified failure is treated as retryable
exactly when its code is `ECONNRESET`, `ETIMEDOUT` or `ENOTFOUND`: such
a failure consumes a retry attempt (a second invocation follows), while
any other non-classified failure is propagated immediately after exactly
one invocation. -/
theorem network_error_retryability (opts : RetryOptions)
    (results : ℕ → Except RetryError Response) (r : Response) (c : Option String) :
    ((c = some "ECONNRESET" ∨ c = some "ETIMEDOUT" ∨ c = some "ENOTFOUND") →
      1 ≤ opts.maxRetries → results 0 = .error (.env c) → results 1 = .ok r →
      (retryQuery opts results).1 = 2 ∧ (retryQuery opts results).2 = .ok r)
    ∧ (isRetryable (.env c) opts.retryableErrors = false →
        results 0 = .error (.env c) →
        retryQuery opts results = (1, .error (.env c))) := by
  constructor
  · intro hc hm h0 h1
    have hr : isRetryable (.env c) opts.retryableErrors = true := by
      rcases hc with h | h | h <;> simp [isRetryable, h]
    obtain ⟨k, hk⟩ : ∃ k, opts.maxRetries = k + 1 :=
      ⟨opts.maxRetries - 1, by omega⟩
    rw [retryQuery, hk, retryAttempts, h0]
    simp only [hr, if_true]
    rw [retryAttempts]
    simp [h1]
  · intro hr h0
    rw [retryQuery, retryAttempts, h0]
    simp [hr]

/-- Witness for `network_error_retryability`: an `ECONNRESET` on the
first attempt followed by a success yields two invocations and the
success; an `EPIPE` yields one invocation and propagates. -/
theorem network_error_retryability_witness :
    ((retryQuery defaultRetryOptions
        (fun i => if i = 0 then .error (.env (some "ECONNRESET")) else .ok 7)).1 = 2 ∧
      (retryQuery defaultRetryOptions
        (fun i => if i = 0 then .error (.env (some "ECONNRESET")) else .ok 7)).2 = .ok 7) ∧
    retryQuery defaultRetryOptions (fun _ => .error (.env none)) =
      (1, .error (.env none)) := by
  constructor
  · exact (network_error_retryability defaultRetryOptions _ 7 (some "ECONNRESET")).1
      (Or.inl rfl) (by decide) rfl rfl
  · exact (network_error_retryability defaultRetryOptions _ 7 none).2 (by decide) rfl

/-- Claim C9: For every attempt index and configuration, when the error
carries no `retryAfter` hint the computed delay lies between the base
value `min(initialDelay * backoffMultiplier^i, maxDelay)` and `1.3×`
that base value, for any jitter draw in `[0, 1)`. -/
theorem backoff_delay_bounds (i : ℕ) (opts : RetryOptions) (e : RetryError) (rand : ℚ)
    (h0 : 0 ≤ rand) (h1 : rand < 1) (hhint : errRetryAfter e = none) :
    ((min (opts.initialDelay * opts.backoffMultiplier ^ i) opts.maxDelay : ℕ) : ℚ) ≤
      calculateDelay i e opts rand ∧
    calculateDelay i e opts rand ≤
      (13 / 10) * ((min (opts.initialDelay * opts.backoffMultiplier ^ i) opts.maxDelay : ℕ) : ℚ) := by
  have he : calculateDelay i e opts rand = backoffDelay i opts rand := by
    cases e with
    | env c => rfl
    | sdk code ra =>
      cases ra with
      | none => rfl
      | some ra' => simp [errRetryAfter] at hhint
  rw [he, backoffDelay]
  set D : ℕ := min (opts.initialDelay * opts.backoffMultiplier ^ i) opts.maxDelay with hD
  have hD0 : (0 : ℚ) ≤ (D : ℚ) := by positivity
  have hj : (0 : ℚ) ≤ rand * (3 / 10) * (D : ℚ) := by positivity
  have hj2 : rand * (3 / 10) * (D : ℚ) ≤ (3 / 10) * (D : ℚ) := by nlinarith
  constructor
  · have : (D : ℤ) ≤ ⌊(D : ℚ) + rand * (3 / 10) * (D : ℚ)⌋ := by
      apply Int.le_floor.mpr
      push_cast
      linarith
    exact_mod_cast this
  · have hfl : ((⌊(D : ℚ) + rand * (3 / 10) * (D : ℚ)⌋ : ℤ) : ℚ) ≤
        (D : ℚ) + rand * (3 / 10) * (D : ℚ) := Int.floor_le _
    calc ((⌊(D : ℚ) + rand * (3 / 10) * (D : ℚ)⌋ : ℤ) : ℚ)
        ≤ (D : ℚ) + rand * (3 / 10) * (D : ℚ) := hfl
      _ ≤ (D : ℚ) + (3 / 10) * (D : ℚ) := by linarith
      _ = (13 / 10) * (D : ℚ) := by ring

/-- Witness for `backoff_delay_bounds`: at attempt 2 with the defaults
and jitter draw `1/2`, the delay lies between 4000 and 5200. -/
theorem backoff_delay_bounds_witness :
    (0 : ℚ) ≤ 1 / 2 ∧ (1 / 2 : ℚ) < 1 ∧
    errRetryAfter (.sdk 503 none) = none ∧
    (((min (defaultRetryOptions.initialDelay * defaultRetryOptions.backoffMultiplier ^ 2)
        defaultRetryOptions.maxDelay : ℕ) : ℚ) ≤
      calculateDelay 2 (.sdk 503 none) defaultRetryOptions (1 / 2) ∧
    calculateDelay 2 (.sdk 503 none) defaultRetryOptions (1 / 2) ≤
      (13 / 10) * ((min (defaultRetryOptions.initialDelay *
        defaultRetryOptions.backoffMultiplier ^ 2) defaultRetryOptions.maxDelay : ℕ) : ℚ)) :=
  ⟨by norm_num, by norm_num, rfl,
    backoff_delay_bounds 2 defaultRetryOptions (.sdk 503 none) (1 / 2)
      (by norm_num) (by norm_num) rfl⟩

set_option maxHeartbeats 1000000 in
/-- Claim C2: The circuit-breaker state machine: (1) five consecutive
failures from the initial Closed state open the circuit, and a further
call before `resetTimeout` has elapsed since the last failure is
rejected without invoking the inner operation; (2) once the reset timeout
has elapsed since the last recorded failure, the next call on an Open
circuit is attempted from the HalfOpen state; (3) a single failure in
HalfOpen immediately reopens the circuit; (4) three consecutive
successes in HalfOpen close the circuit and reset both counters. -/
theorem circuit_breaker_transitions :
    (∀ t1 t2 t3 t4 t5 t6 : ℕ, ∀ inner : Except Unit Response,
      (cbRun defaultCBOptions
        [(t1, .error ()), (t2, .error ()), (t3, .error ()), (t4, .error ()), (t5, .error ())]
        initialCBState).state = .open ∧
      (cbRun defaultCBOptions
        [(t1, .error ()), (t2, .error ()), (t3, .error ()), (t4, .error ()), (t5, .error ())]
        initialCBState).failures = 5 ∧
      (t6 - t5 < 60000 →
        cbQuery defaultCBOptions t6 inner
          (cbRun defaultCBOptions
            [(t1, .error ()), (t2, .error ()), (t3, .error ()), (t4, .error ()), (t5, .error ())]
            initialCBState) =
        (.rejected,
          cbRun defaultCBOptions
            [(t1, .error ()), (t2, .error ()), (t3, .error ()), (t4, .error ()), (t5, .error ())]
            initialCBState, false)))
    ∧ (∀ (cb : CBState) (now t : ℕ) (inner : Except Unit Response),
        cb.state = .open → cb.lastFailureTime = some t → 60000 ≤ now - t →
        cbQuery defaultCBOptions now inner cb =
          (match inner with
           | .ok r => (.ok r, onSuccess { cb with state := .halfOpen }, true)
           | .error _ => (.err, onFailure defaultCBOptions now { cb with state := .halfOpen }, true)))
    ∧ (∀ (cb : CBState) (now : ℕ), cb.state = .halfOpen →
        (cbQuery defaultCBOptions now (.error ()) cb).2.1.state = .open ∧
        (cbQuery defaultCBOptions now (.error ()) cb).2.2 = true)
    ∧ (∀ (cb : CBState) (t1 t2 t3 : ℕ) (r1 r2 r3 : Response),
        cb.state = .halfOpen → cb.successCount = 0 →
        (cbRun defaultCBOptions [(t1, .ok r1), (t2, .ok r2), (t3, .ok r3)] cb).state = .closed ∧
        (cbRun defaultCBOptions [(t1, .ok r1), (t2, .ok r2), (t3, .ok r3)] cb).failures = 0 ∧
        (cbRun defaultCBOptions [(t1, .ok r1), (t2, .ok r2), (t3, .ok r3)] cb).successCount = 0) := by
  refine ⟨?_, ?_, ?_, ?_⟩
  · intro t1 t2 t3 t4 t5 t6 inner
    have h5 : (cbRun defaultCBOptions
        [(t1, .error ()), (t2, .error ()), (t3, .error ()), (t4, .error ()), (t5, .error ())]
        initialCBState) = ⟨.open, 5, some t5, 0⟩ := by
      simp [cbRun, cbQuery, shouldAttemptReset, onFailure, onSuccess, initialCBState,
        defaultCBOptions]
    rw [h5]
    refine ⟨rfl, rfl, ?_⟩
    intro hlt
    have hcond : ((⟨.open, 5, some t5, 0⟩ : CBState).state = .open ∧
        ¬ shouldAttemptReset defaultCBOptions t6 ⟨.open, 5, some t5, 0⟩) := by
      refine ⟨rfl, ?_⟩
      simp [shouldAttemptReset, defaultCBOptions]
      omega
    rw [cbQuery, if_pos hcond]
  · intro cb now t inner hst hlast hreset
    have hsar : shouldAttemptReset defaultCBOptions now cb = true := by
      rw [shouldAttemptReset, hlast]
      simp [defaultCBOptions]
      omega
    rw [cbQuery, if_neg (by simp [hsar]), if_pos hst]
  · intro cb now hst
    have hne : ¬ (cb.state = .open ∧ ¬ shouldAttemptReset defaultCBOptions now cb) := by
      rw [hst]; simp
    rw [cbQuery, if_neg hne, if_neg (by rw [hst]; simp)]
    simp [onFailure, hst]
  · intro cb t1 t2 t3 r1 r2 r3 hst hsc
    obtain ⟨st, f, lft, sc⟩ := cb
    simp only at hst hsc
    subst hst
    subst hsc
    refine ⟨?_, ?_, ?_⟩ <;>
      simp [cbRun, cbQuery, shouldAttemptReset, onSuccess, defaultCBOptions]

set_option maxHeartbeats 1000000 in
/-- Witness for `circuit_breaker_transitions`: concrete times and
outcomes for each of the four conjuncts. -/
theorem circuit_breaker_transitions_witness :
    ((cbRun defaultCBOptions
        [(0, .error ()), (1, .error ()), (2, .error ()), (3, .error ()), (4, .error ())]
        initialCBState).state = .open ∧
      cbQuery defaultCBOptions 5 (.ok 1)
        (cbRun defaultCBOptions
          [(0, .error ()), (1, .error ()), (2, .error ()), (3, .error ()), (4, .error ())]
          initialCBState) =
      (.rejected,
        cbRun defaultCBOptions
          [(0, .error ()), (1, .error ()), (2, .error ()), (3, .error ()), (4, .error ())]
          initialCBState, false)) ∧
    cbQuery defaultCBOptions 70000 (.ok 1) ⟨.open, 5, some 4, 0⟩ =
      (.ok 1, onSuccess ⟨.halfOpen, 5, some 4, 0⟩, true) ∧
    ((cbQuery defaultCBOptions 70001 (.error ()) ⟨.halfOpen, 0, some 4, 1⟩).2.1.state = .open ∧
      (cbQuery defaultCBOptions 70001 (.error ()) ⟨.halfOpen, 0, some 4, 1⟩).2.2 = true) ∧
    ((cbRun defaultCBOptions [(8, .ok 1), (9, .ok 2), (10, .ok 3)] ⟨.halfOpen, 2, some 4, 0⟩).state = .closed ∧
      (cbRun defaultCBOptions [(8, .ok 1), (9, .ok 2), (10, .ok 3)] ⟨.halfOpen, 2, some 4, 0⟩).failures = 0 ∧
      (cbRun defaultCBOptions [(8, .ok 1), (9, .ok 2), (10, .ok 3)] ⟨.halfOpen, 2, some 4, 0⟩).successCount = 0) := by
  refine ⟨⟨(circuit_breaker_transitions.1 0 1 2 3 4 5 (.ok 1)).1,
    (circuit_breaker_transitions.1 0 1 2 3 4 5 (.ok 1)).2.2 (by norm_num)⟩,
    circuit_breaker_transitions.2.1 ⟨.open, 5, some 4, 0⟩ 70000 4 (.ok 1) rfl rfl (by norm_num),
    circuit_breaker_transitions.2.2.1 ⟨.halfOpen, 0, some 4, 1⟩ 70001 rfl,
    circuit_breaker_transitions.2.2.2 ⟨.halfOpen, 2, some 4, 0⟩ 8 9 10 1 2 3 rfl rfl⟩

/-- Run of the monitoring client over a call list with no non-SDK
failure: the request counter, total-error counter and error rate agree
with the outcomes seen so far. -/
lemma monRun_invariant (w : ℕ) (calls : List (ℕ × MonOutcome)) (hw : calls.length ≤ w)
    (hsdk : ∀ c ∈ calls, c.2 ≠ MonOutcome.envFailure) :
    (monRun w calls).requests = calls.length ∧
    (monRun w calls).metrics.totalErrors = monFailures calls ∧
    (calls ≠ [] →
      (monRun w calls).metrics.errorRate = (monFailures calls : ℚ) / (calls.length : ℚ)) := by
  induction calls using List.reverseRecOn with
  | nil => exact ⟨rfl, rfl, fun h => absurd rfl h⟩
  | append_singleton l x ih =>
    have hw' : l.length ≤ w := by
      have := hw
      simp at this
      omega
    obtain ⟨ihr, ihe, _⟩ := ih hw' (fun c hc => hsdk c (List.mem_append_left _ hc))
    have hrun : monRun w (l ++ [x]) = monStep w x.1 x.2 (monRun w l) := by
      rw [monRun, monRun, List.foldl_append, List.foldl_cons, List.foldl_nil]
    have hlen : (l ++ [x]).length = l.length + 1 := by simp
    have hmin : min (l.length + 1) w = l.length + 1 :=
      Nat.min_eq_left (by simpa [hlen] using hw)
    cases hx : x.2 with
    | success r =>
      have hfail : monFailures (l ++ [x]) = monFailures l := by
        rw [monFailures, monFailures, List.countP_append]
        simp [hx]
      rw [hrun, hx, monStep, updateErrorRate]
      simp only [ihr, ihe, hmin, hfail, hlen]
      rw [if_pos (by omega : 0 < l.length + 1)]
      exact ⟨rfl, rfl, fun _ => rfl⟩
    | failure code msg =>
      have hfail : monFailures (l ++ [x]) = monFailures l + 1 := by
        rw [monFailures, monFailures, List.countP_append]
        simp [hx, monFailures]
      rw [hrun, hx, monStep, recordError, updateErrorRate]
      simp only [ihr, ihe, hmin, hfail, hlen]
      rw [if_pos (by omega : 0 < l.length + 1)]
      exact ⟨rfl, rfl, fun _ => rfl⟩
    | envFailure =>
      exact absurd hx (hsdk x (List.mem_append_right _ (List.mem_singleton_self x)))

/-- Claim C7, counterexample: a monitored call can fail with an error
that is not a `VantigeSDKError` (for instance the circuit breaker's own
plain `Error('Circuit breaker is OPEN...')` in the composed example);
such a failure passes the `instanceof` guard unrecorded. After a success
followed by such a failure (`N = 2 ≤ windowSize`, `E = 1`) the reported
`errorRate` is `0`, not `E / N = 1 / 2`; and after an SDK failure
followed by such a failure, `errorRate` is `1` while
`totalErrors / min(totalRequests, windowSize) = 1 / 2`, so both claimed
equalities fail. -/
theorem monitoring_error_rate_counterexample :
    ([((0 : ℕ), MonOutcome.success 1), (1, .envFailure)].length ≤ 100) ∧
    monFailures [((0 : ℕ), MonOutcome.success 1), (1, .envFailure)] = 1 ∧
    (monRun 100 [((0 : ℕ), MonOutcome.success 1), (1, .envFailure)]).metrics.errorRate = 0 ∧
    ((0 : ℚ) ≠ (1 : ℚ) / 2) ∧
    (monRun 100 [((0 : ℕ), MonOutcome.failure 500 "e"), (1, .envFailure)]).metrics.errorRate = 1 ∧
    (monRun 100 [((0 : ℕ), MonOutcome.failure 500 "e"), (1, .envFailure)]).metrics.totalErrors = 1 ∧
    (monRun 100 [((0 : ℕ), MonOutcome.failure 500 "e"), (1, .envFailure)]).requests = 2 ∧
    ((monRun 100 [((0 : ℕ), MonOutcome.failure 500 "e"), (1, .envFailure)]).metrics.errorRate ≠
      ((monRun 100 [((0 : ℕ), MonOutcome.failure 500 "e"), (1, .envFailure)]).metrics.totalErrors : ℚ) /
        ((min (monRun 100 [((0 : ℕ), MonOutcome.failure 500 "e"), (1, .envFailure)]).requests 100 : ℕ) : ℚ)) := by
  have h1 : monRun 100 [((0 : ℕ), MonOutcome.success 1), (1, .envFailure)] =
      { metrics := { totalErrors := 0, errorsByCode := [], errorRate := 0, lastError := none },
        requests := 2 } := by
    norm_num [monRun, monStep, updateErrorRate, initialMonState, List.foldl]
  have h2 : monRun 100 [((0 : ℕ), MonOutcome.failure 500 "e"), (1, .envFailure)] =
      { metrics :=
          { totalErrors := 1
            errorsByCode := [(500, 1)]
            errorRate := 1
            lastError := some (500, "e", 0) }
        requests := 2 } := by
    norm_num [monRun, monStep, updateErrorRate, recordError, bumpCode, initialMonState,
      List.foldl]
  refine ⟨by norm_num, by decide, by rw [h1], by norm_num, by rw [h2], by rw [h2],
    by rw [h2], ?_⟩
  rw [h2]
  norm_num

/-- Claim C7, amended: after `N ≤ windowSize` completed monitored calls
of which `E` failed, provided every failure is a classified SDK error,
the reported `errorRate` equals
`totalErrors / min(totalRequests, windowSize)`, which equals `E / N`
exactly; a failure that is not a classified SDK error increments only
the request counter and leaves the metrics (hence `errorRate`)
unchanged. -/
theorem monitoring_error_rate (w : ℕ) (calls : List (ℕ × MonOutcome))
    (hw : calls.length ≤ w) (hpos : 0 < calls.length)
    (hsdk : ∀ c ∈ calls, c.2 ≠ MonOutcome.envFailure) :
    ((monRun w calls).metrics.errorRate =
      ((monRun w calls).metrics.totalErrors : ℚ) / ((min (monRun w calls).requests w : ℕ) : ℚ) ∧
    (monRun w calls).metrics.errorRate = (monFailures calls : ℚ) / (calls.length : ℚ)) ∧
    (∀ (s : MonState) (now : ℕ),
      (monStep w now .envFailure s).metrics = s.metrics ∧
      (monStep w now .envFailure s).requests = s.requests + 1) := by
  obtain ⟨hr, he, hrate⟩ := monRun_invariant w calls hw hsdk
  have hne : calls ≠ [] := by
    intro h
    rw [h] at hpos
    simp at hpos
  have h2 := hrate hne
  refine ⟨⟨?_, h2⟩, fun s now => ⟨rfl, rfl⟩⟩
  rw [h2, hr, he, Nat.min_eq_left hw]

/-- Witness for `monitoring_error_rate`: three calls with two SDK
failures give an error rate of exactly 2/3. -/
theorem monitoring_error_rate_witness :
    ([((0 : ℕ), MonOutcome.failure 500 "e"), (1, .success 2), (2, .failure 429 "r")].length ≤ 100) ∧
    (0 < [((0 : ℕ), MonOutcome.failure 500 "e"), (1, .success 2), (2, .failure 429 "r")].length) ∧
    (∀ c ∈ [((0 : ℕ), MonOutcome.failure 500 "e"), (1, .success 2), (2, .failure 429 "r")],
      c.2 ≠ MonOutcome.envFailure) ∧
    (monRun 100 [((0 : ℕ), MonOutcome.failure 500 "e"), (1, .success 2), (2, .failure 429 "r")]).metrics.errorRate =
      (monFailures [((0 : ℕ), MonOutcome.failure 500 "e"), (1, .success 2), (2, .failure 429 "r")] : ℚ) /
        (([((0 : ℕ), MonOutcome.failure 500 "e"), (1, .success 2), (2, .failure 429 "r")].length : ℕ) : ℚ) :=
  ⟨by norm_num, by norm_num, by decide,
    ((monitoring_error_rate 100
      [((0 : ℕ), MonOutcome.failure 500 "e"), (1, .success 2), (2, .failure 429 "r")]
      (by norm_num) (by norm_num) (by decide)).1).2⟩

/-- Bumping the hit counter of key `k` maps the stored entry and leaves
other keys alone. -/
lemma mapGet_bumpHits (k : String) (s : CacheState) :
    mapGet k (bumpHits k s) = (mapGet k s).map (fun e => { e with hits := e.hits + 1 }) := by
  induction s with
  | nil => rfl
  | cons p rest ih =>
    by_cases hp : p.1 = k
    · simp [mapGet, bumpHits, List.find?_cons, hp]
    · simp only [bumpHits, List.map_cons, if_neg hp]
      simp only [mapGet, List.find?_cons] at ih ⊢
      rw [show (decide (p.1 = k)) = false from by simp [hp]]
      simpa [bumpHits] using ih

/-- Lemma: `bumpHits` preserves the key sequence of the cache. -/
lemma bumpHits_keys (k : String) (s : CacheState) :
    (bumpHits k s).map Prod.fst = s.map Prod.fst := by
  rw [bumpHits, List.map_map]
  apply List.map_congr_left
  intro p _
  by_cases hp : p.1 = k <;> simp [hp]

/-- Lemma: `mapGet` returns `none` exactly when no stored pair carries the key. -/
lemma mapGet_eq_none (k : String) (s : CacheState) :
    mapGet k s = none ↔ ∀ q ∈ s, q.1 ≠ k := by
  rw [mapGet, Option.map_eq_none', List.find?_eq_none]
  constructor
  · intro h q hq
    have := h q hq
    simpa using this
  · intro h q hq
    simpa using h q hq

/-- Characterisation of the `findLRUKey` fold: the accumulator survives
iff it already beats every remaining score; otherwise the result is the
first entry of the list attaining the final strictly-smaller minimum. -/
lemma minScoreAux_spec (now : ℕ) (l : List (String × CacheEntry)) (k : String) (m : ℤ) :
    (minScoreAux now l (k, m) = (k, m) ∧ ∀ q ∈ l, m ≤ score now q.2) ∨
    (∃ pre q suf, l = pre ++ q :: suf ∧
      minScoreAux now l (k, m) = (q.1, score now q.2) ∧
      score now q.2 < m ∧
      (∀ x ∈ pre, score now q.2 < score now x.2) ∧
      (∀ x ∈ suf, score now q.2 ≤ score now x.2)) := by
  induction l generalizing k m with
  | nil => exact Or.inl ⟨rfl, by simp⟩
  | cons p rest ih =>
    by_cases hlt : score now p.2 < m
    · have hstep : minScoreAux now (p :: rest) (k, m) =
          minScoreAux now rest (p.1, score now p.2) := by
        rw [minScoreAux, if_pos hlt]
      rcases ih p.1 (score now p.2) with ⟨heq, hall⟩ | ⟨pre, q, suf, hdec, heq, hsc, hpre, hsuf⟩
      · refine Or.inr ⟨[], p, rest, by simp, ?_, hlt, by simp, hall⟩
        rw [hstep, heq]
      · refine Or.inr ⟨p :: pre, q, suf, by simp [hdec], ?_, lt_trans hsc hlt, ?_, hsuf⟩
        · rw [hstep, heq]
        · intro x hx
          rcases List.mem_cons.mp hx with hx | hx
          · rw [hx]; exact hsc
          · exact hpre x hx
    · have hge : m ≤ score now p.2 := le_of_not_lt hlt
      have hstep : minScoreAux now (p :: rest) (k, m) = minScoreAux now rest (k, m) := by
        rw [minScoreAux, if_neg hlt]
      rcases ih k m with ⟨heq, hall⟩ | ⟨pre, q, suf, hdec, heq, hsc, hpre, hsuf⟩
      · refine Or.inl ⟨?_, ?_⟩
        · rw [hstep, heq]
        · intro x hx
          rcases List.mem_cons.mp hx with hx | hx
          · rw [hx]; exact hge
          · exact hall x hx
      · refine Or.inr ⟨p :: pre, q, suf, by simp [hdec], ?_, hsc, ?_, hsuf⟩
        · rw [hstep, heq]
        · intro x hx
          rcases List.mem_cons.mp hx with hx | hx
          · rw [hx]; exact lt_of_lt_of_le hsc hge
          · exact hpre x hx

/-- A non-empty cache yields an eviction candidate that is the first
entry attaining the minimal utility score. -/
lemma findLRUKey_spec (now : ℕ) (s : CacheState) (hs : s ≠ []) :
    ∃ pre e suf, s = pre ++ e :: suf ∧
      findLRUKey now s = some e.1 ∧
      (∀ q ∈ s, score now e.2 ≤ score now q.2) ∧
      (∀ q ∈ pre, score now e.2 < score now q.2) := by
  obtain ⟨p, rest, rfl⟩ := List.exists_cons_of_ne_nil hs
  rcases minScoreAux_spec now rest p.1 (score now p.2) with
    ⟨heq, hall⟩ | ⟨pre, q, suf, hdec, heq, hsc, hpre, hsuf⟩
  · refine ⟨[], p, rest, by simp, ?_, ?_, by simp⟩
    · rw [findLRUKey, heq]
    · intro x hx
      rcases List.mem_cons.mp hx with hx | hx
      · rw [hx]
      · exact hall x hx
  · refine ⟨p :: pre, q, suf, by simp [hdec], ?_, ?_, ?_⟩
    · rw [findLRUKey, heq]
    · intro x hx
      rw [hdec] at hx
      rcases List.mem_cons.mp hx with hx | hx
      · rw [hx]; exact le_of_lt hsc
      · rcases List.mem_append.mp hx with hx | hx
        · exact le_of_lt (hpre x hx)
        · rcases List.mem_cons.mp hx with hx | hx
          · rw [hx]
          · exact hsuf x hx
    · intro x hx
      rcases List.mem_cons.mp hx with hx | hx
      · rw [hx]; exact hsc
      · exact hpre x hx

/-- Removing a present key from a nodup-keyed cache drops exactly one
entry. -/
lemma eraseKey_length (ek : String) (e : CacheEntry) (s : CacheState)
    (hmem : (ek, e) ∈ s) (hnodup : (s.map Prod.fst).Nodup) :
    (eraseKey ek s).length + 1 = s.length := by
  induction s with
  | nil => cases hmem
  | cons p rest ih =>
    simp only [List.map_cons, List.nodup_cons] at hnodup
    rcases List.mem_cons.mp hmem with hp | hp
    · have hpk : p.1 = ek := by rw [← hp]
      have hrest : eraseKey ek rest = rest := by
        rw [eraseKey, List.filter_eq_self]
        intro q hq
        simp only [ne_eq, decide_eq_true_eq]
        intro hqk
        have hmm : q.1 ∈ List.map Prod.fst rest := List.mem_map_of_mem Prod.fst hq
        rw [hqk, ← hpk] at hmm
        exact hnodup.1 hmm
      rw [eraseKey, List.filter_cons]
      rw [show (decide (p.1 ≠ ek)) = false from by simp [hpk]]
      simp only [Bool.false_eq_true, if_neg (by simp : ¬False)]
      rw [show List.filter (fun p => decide (p.1 ≠ ek)) rest = eraseKey ek rest from rfl, hrest]
      simp
    · have hpk : p.1 ≠ ek := by
        intro hk
        have hmm : (ek, e).1 ∈ List.map Prod.fst rest := List.mem_map_of_mem Prod.fst hp
        simp only at hmm
        rw [← hk] at hmm
        exact hnodup.1 hmm
      rw [eraseKey, List.filter_cons]
      rw [show (decide (p.1 ≠ ek)) = true from by simp [hpk]]
      simp only [if_pos trivial]
      have := ih hp hnodup.2
      rw [eraseKey] at this
      simp only [List.length_cons]
      omega

/-- The keys of `eraseKey k s` form a sublist of the keys of `s`. -/
lemma eraseKey_keys_sublist (k : String) (s : CacheState) :
    ((eraseKey k s).map Prod.fst).Sublist (s.map Prod.fst) :=
  (List.filter_sublist s).map Prod.fst

/-- Members of `eraseKey k s` are members of `s`. -/
lemma eraseKey_subset (k : String) (s : CacheState) :
    ∀ q ∈ eraseKey k s, q ∈ s := fun _ hq => List.mem_of_mem_filter hq

/-- Inserting a key that is not stored appends it. -/
lemma mapSet_not_mem (k : String) (v : CacheEntry) (s : CacheState)
    (h : ∀ q ∈ s, q.1 ≠ k) : mapSet k v s = s ++ [(k, v)] := by
  rw [mapSet, if_neg]
  simp only [List.any_eq_true, not_exists, not_and]
  intro q hq
  simp [h q hq]

/-- The key sequence after `mapSet` with a stored key is unchanged. -/
lemma mapSet_mem_keys (k : String) (v : CacheEntry) (s : CacheState)
    (h : s.any (fun p => p.1 = k) = true) :
    (mapSet k v s).map Prod.fst = s.map Prod.fst := by
  rw [mapSet, if_pos h, List.map_map]
  apply List.map_congr_left
  intro p _
  by_cases hp : p.1 = k
  · simp [hp]
  · simp [hp]

/-- Lemma: `getCacheKey` never returns the empty string (it is a JSON object
literal, opening with a brace). -/
lemma getCacheKey_ne_empty (p : QueryParams) : getCacheKey p ≠ "" := by
  intro h
  have h2 : (getCacheKey p).length = 0 := by rw [h]; rfl
  rw [getCacheKey] at h2
  simp only [String.length_append] at h2
  have hpos : 0 < ("\x7b\"corpusId\":" : String).length := by decide
  omega

/-- Claim C5: A response stored under a key at time `T` is, for any call
with the same key strictly before `T + TTL`, served from the cache
without invoking the inner operation and with the entry's hit counter
incremented; a call at or after `T + TTL` invokes the inner operation
again. -/
theorem cache_ttl_behavior (now T : ℕ) (p : QueryParams) (s : CacheState) (e : CacheEntry)
    (inner : Except Unit Response)
    (hget : mapGet (getCacheKey p) s = some e) (hT : e.timestamp = T) :
    (now < T + cacheTimeout →
      cacheQuery now p inner s =
        ⟨.ok e.response, bumpHits (getCacheKey p) s, false⟩ ∧
      mapGet (getCacheKey p) (cacheQuery now p inner s).state =
        some { e with hits := e.hits + 1 })
    ∧ (T + cacheTimeout ≤ now → (cacheQuery now p inner s).innerCalled = true) := by
  constructor
  · intro hfresh
    have hv : isCacheValid now e = true := by
      rw [isCacheValid]
      simp only [decide_eq_true_eq]
      have : (0 : ℕ) < cacheTimeout := by rw [cacheTimeout]; omega
      omega
    have hq : cacheQuery now p inner s =
        ⟨.ok e.response, bumpHits (getCacheKey p) s, false⟩ := by
      rw [cacheQuery.eq_def]
      simp only [hget, hv, if_true]
    refine ⟨hq, ?_⟩
    rw [hq]
    show mapGet (getCacheKey p) (bumpHits (getCacheKey p) s) = _
    rw [mapGet_bumpHits, hget]
    rfl
  · intro hstale
    have hv : isCacheValid now e = false := by
      rw [isCacheValid]
      simp only [decide_eq_false_iff_not, not_lt]
      omega
    rw [cacheQuery.eq_def]
    simp only [hget, hv, Bool.false_eq_true, if_false]
    cases inner <;> rfl

/-- Witness for `cache_ttl_behavior`: an entry stored at time 1000 is
served from the cache at time 1500 and its hit counter goes to 1; at
time 301000 the inner operation is invoked again. -/
theorem cache_ttl_behavior_witness :
    (mapGet (getCacheKey ⟨"docs", "q", none, none⟩)
        [(getCacheKey ⟨"docs", "q", none, none⟩, ⟨42, 1000, 0⟩)] = some ⟨42, 1000, 0⟩) ∧
    ((1500 : ℕ) < 1000 + cacheTimeout) ∧
    cacheQuery 1500 ⟨"docs", "q", none, none⟩ (.ok 7)
        [(getCacheKey ⟨"docs", "q", none, none⟩, ⟨42, 1000, 0⟩)] =
      ⟨.ok 42, bumpHits (getCacheKey ⟨"docs", "q", none, none⟩)
        [(getCacheKey ⟨"docs", "q", none, none⟩, ⟨42, 1000, 0⟩)], false⟩ ∧
    ((1000 + cacheTimeout : ℕ) ≤ 301000) ∧
    (cacheQuery 301000 ⟨"docs", "q", none, none⟩ (.ok 7)
        [(getCacheKey ⟨"docs", "q", none, none⟩, ⟨42, 1000, 0⟩)]).innerCalled = true := by
  have hget : mapGet (getCacheKey ⟨"docs", "q", none, none⟩)
      [(getCacheKey ⟨"docs", "q", none, none⟩, ⟨42, 1000, 0⟩)] = some ⟨42, 1000, 0⟩ := by
    rw [mapGet]
    simp [List.find?_cons]
  have hfresh : (1500 : ℕ) < 1000 + cacheTimeout := by norm_num [cacheTimeout]
  have hstale : (1000 + cacheTimeout : ℕ) ≤ 301000 := by norm_num [cacheTimeout]
  exact ⟨hget, hfresh,
    ((cache_ttl_behavior 1500 1000 ⟨"docs", "q", none, none⟩ _ ⟨42, 1000, 0⟩ (.ok 7)
      hget rfl).1 hfresh).1,
    hstale,
    (cache_ttl_behavior 301000 1000 ⟨"docs", "q", none, none⟩ _ ⟨42, 1000, 0⟩ (.ok 7)
      hget rfl).2 hstale⟩

/-- Claim C6: When the cache holds exactly `maxCacheSize` entries and a
request with an absent key succeeds, exactly one existing entry is
evicted: the one produced by `findLRUKey`, which attains the minimal
utility score `hits * 10000 + age` among all current entries (and is the
first entry in insertion order attaining it), and the new state is the
old one minus that entry plus the fresh entry, still of size
`maxCacheSize`. -/
theorem cache_eviction_lowest_score (now : ℕ) (p : QueryParams) (s : CacheState) (r : Response)
    (hlen : s.length = maxCacheSize)
    (hnodup : (s.map Prod.fst).Nodup)
    (hne : ∀ q ∈ s, q.1 ≠ "")
    (hmiss : mapGet (getCacheKey p) s = none) :
    ∃ ek e, findLRUKey now s = some ek ∧ (ek, e) ∈ s ∧
      (∀ q ∈ s, score now e ≤ score now q.2) ∧
      (∃ pre suf, s = pre ++ (ek, e) :: suf ∧
        ∀ q ∈ pre, score now e < score now q.2) ∧
      (cacheQuery now p (.ok r) s).state =
        eraseKey ek s ++ [(getCacheKey p, ⟨r, now, 0⟩)] ∧
      ((cacheQuery now p (.ok r) s).state).length = maxCacheSize := by
  have hs : s ≠ [] := by
    intro h
    rw [h] at hlen
    simp [maxCacheSize] at hlen
  obtain ⟨pre, ⟨ek, e⟩, suf, hdec, hfind, hmin, hpre⟩ := findLRUKey_spec now s hs
  have hmem : (ek, e) ∈ s := by rw [hdec]; simp
  have hekne : ek ≠ "" := hne (ek, e) hmem
  have hstate : (cacheQuery now p (.ok r) s).state = updateCache now (getCacheKey p) r s := by
    rw [cacheQuery.eq_def]
    simp only [hmiss]
  have hup : updateCache now (getCacheKey p) r s =
      eraseKey ek s ++ [(getCacheKey p, ⟨r, now, 0⟩)] := by
    rw [updateCache]
    rw [if_pos hlen.ge, hfind]
    simp only [if_pos hekne]
    apply mapSet_not_mem
    intro x hx
    exact (mapGet_eq_none _ _).mp hmiss x (eraseKey_subset ek s x hx)
  have hlen2 : (eraseKey ek s).length + 1 = s.length := eraseKey_length ek e s hmem hnodup
  refine ⟨ek, e, hfind, hmem, hmin, ⟨pre, suf, hdec, hpre⟩, by rw [hstate, hup], ?_⟩
  rw [hstate, hup, List.length_append]
  simp only [List.length_singleton]
  omega

/-- Witness for `cache_eviction_lowest_score`: a full 100-entry cache
with distinct keys receives a new key; the theorem applies. -/
theorem cache_eviction_lowest_score_witness :
    (((List.range 100).map
        (fun i => (toString i, (⟨i, 0, 0⟩ : CacheEntry)))).length = maxCacheSize) ∧
    ((((List.range 100).map
        (fun i => (toString i, (⟨i, 0, 0⟩ : CacheEntry)))).map Prod.fst).Nodup) ∧
    (∀ q ∈ (List.range 100).map
        (fun i => (toString i, (⟨i, 0, 0⟩ : CacheEntry))), q.1 ≠ "") ∧
    (mapGet (getCacheKey ⟨"d", "q", none, none⟩)
      ((List.range 100).map (fun i => (toString i, (⟨i, 0, 0⟩ : CacheEntry)))) = none) ∧
    (∃ ek e,
      findLRUKey 5 ((List.range 100).map
        (fun i => (toString i, (⟨i, 0, 0⟩ : CacheEntry)))) = some ek ∧
      (ek, e) ∈ (List.range 100).map (fun i => (toString i, (⟨i, 0, 0⟩ : CacheEntry))) ∧
      (∀ q ∈ (List.range 100).map (fun i => (toString i, (⟨i, 0, 0⟩ : CacheEntry))),
        score 5 e ≤ score 5 q.2) ∧
      (∃ pre suf, (List.range 100).map (fun i => (toString i, (⟨i, 0, 0⟩ : CacheEntry))) =
        pre ++ (ek, e) :: suf ∧ ∀ q ∈ pre, score 5 e < score 5 q.2) ∧
      (cacheQuery 5 ⟨"d", "q", none, none⟩ (.ok 7)
        ((List.range 100).map (fun i => (toString i, (⟨i, 0, 0⟩ : CacheEntry))))).state =
        eraseKey ek ((List.range 100).map (fun i => (toString i, (⟨i, 0, 0⟩ : CacheEntry)))) ++
          [(getCacheKey ⟨"d", "q", none, none⟩, ⟨7, 5, 0⟩)] ∧
      ((cacheQuery 5 ⟨"d", "q", none, none⟩ (.ok 7)
        ((List.range 100).map (fun i => (toString i, (⟨i, 0, 0⟩ : CacheEntry))))).state).length =
        maxCacheSize) := by
  refine ⟨by decide, by decide, by decide, by decide, ?_⟩
  exact cache_eviction_lowest_score 5 ⟨"d", "q", none, none⟩ _ 7
    (by decide) (by decide) (by decide) (by decide)

/-- Lemma: `mapSet` grows the cache by at most one entry and preserves
key-nodupness and key-nonemptiness (given a nonempty inserted key). -/
lemma mapSet_invariant (k : String) (v : CacheEntry) (s : CacheState) (hk : k ≠ "")
    (h2 : (s.map Prod.fst).Nodup) (h3 : ∀ q ∈ s, q.1 ≠ "") :
    (mapSet k v s).length ≤ s.length + 1 ∧
    ((mapSet k v s).map Prod.fst).Nodup ∧
    (∀ q ∈ mapSet k v s, q.1 ≠ "") := by
  rw [mapSet]
  by_cases hc : s.any (fun p => p.1 = k) = true
  · rw [if_pos hc]
    refine ⟨by simp, ?_, ?_⟩
    · have hkeys : (s.map (fun p => if p.1 = k then (k, v) else p)).map Prod.fst =
          s.map Prod.fst := by
        rw [List.map_map]
        apply List.map_congr_left
        intro x _
        by_cases hx : x.1 = k <;> simp [hx]
      rw [hkeys]
      exact h2
    · intro q hq
      obtain ⟨x, hx, rfl⟩ := List.mem_map.mp hq
      by_cases hxk : x.1 = k
      · simpa [hxk] using hk
      · simpa [hxk] using h3 x hx
  · rw [if_neg hc]
    have hnotin : ∀ q ∈ s, q.1 ≠ k := by
      intro q hq hqk
      exact hc (List.any_eq_true.mpr ⟨q, hq, by simp [hqk]⟩)
    refine ⟨by simp, ?_, ?_⟩
    · rw [List.map_append]
      simp only [List.map_cons, List.map_nil]
      rw [List.nodup_append]
      refine ⟨h2, by simp, ?_⟩
      intro a ha hb
      simp only [List.mem_singleton] at hb
      subst hb
      obtain ⟨x, hx, hxk⟩ := List.mem_map.mp ha
      exact hnotin x hx hxk
    · intro q hq
      rcases List.mem_append.mp hq with hq | hq
      · exact h3 q hq
      · simp only [List.mem_singleton] at hq
        rw [hq]
        exact hk

/-- Lemma: `updateCache` preserves the capacity bound, key-nodupness and
key-nonemptiness: the eviction branch removes a present, nonempty key
before inserting. -/
lemma updateCache_invariant (now : ℕ) (k : String) (r : Response) (s : CacheState)
    (hk : k ≠ "")
    (h1 : s.length ≤ maxCacheSize) (h2 : (s.map Prod.fst).Nodup)
    (h3 : ∀ q ∈ s, q.1 ≠ "") :
    (updateCache now k r s).length ≤ maxCacheSize ∧
    ((updateCache now k r s).map Prod.fst).Nodup ∧
    (∀ q ∈ updateCache now k r s, q.1 ≠ "") := by
  rw [updateCache]
  by_cases hcap : maxCacheSize ≤ s.length
  · have hs : s ≠ [] := by
      intro h
      rw [h] at hcap
      simp [maxCacheSize] at hcap
    obtain ⟨pre, ⟨ek, e⟩, suf, hdec, hfind, hmin, hpre⟩ := findLRUKey_spec now s hs
    have hmem : (ek, e) ∈ s := by rw [hdec]; simp
    have hekne : ek ≠ "" := h3 (ek, e) hmem
    rw [if_pos hcap, hfind]
    simp only [if_pos hekne]
    have hlen2 : (eraseKey ek s).length + 1 = s.length := eraseKey_length ek e s hmem h2
    have h2' : ((eraseKey ek s).map Prod.fst).Nodup := h2.sublist (eraseKey_keys_sublist ek s)
    have h3' : ∀ q ∈ eraseKey ek s, q.1 ≠ "" := fun q hq => h3 q (eraseKey_subset ek s q hq)
    obtain ⟨ha, hb, hcq⟩ := mapSet_invariant k ⟨r, now, 0⟩ (eraseKey ek s) hk h2' h3'
    exact ⟨by omega, hb, hcq⟩
  · rw [if_neg hcap]
    obtain ⟨ha, hb, hcq⟩ := mapSet_invariant k ⟨r, now, 0⟩ s hk h2 h3
    exact ⟨by omega, hb, hcq⟩

/-- One cache call preserves the capacity bound, key-nodupness and
key-nonemptiness. -/
lemma cacheQuery_invariant (now : ℕ) (p : QueryParams) (inner : Except Unit Response)
    (s : CacheState)
    (h1 : s.length ≤ maxCacheSize) (h2 : (s.map Prod.fst).Nodup)
    (h3 : ∀ q ∈ s, q.1 ≠ "") :
    (cacheQuery now p inner s).state.length ≤ maxCacheSize ∧
    (((cacheQuery now p inner s).state).map Prod.fst).Nodup ∧
    (∀ q ∈ (cacheQuery now p inner s).state, q.1 ≠ "") := by
  rw [cacheQuery.eq_def]
  simp only
  cases hget : mapGet (getCacheKey p) s with
  | some e =>
    dsimp only
    cases hv : isCacheValid now e with
    | true =>
      rw [if_pos rfl]
      dsimp only
      refine ⟨?_, ?_, ?_⟩
      · have : (bumpHits (getCacheKey p) s).length = s.length := by
          rw [bumpHits, List.length_map]
        omega
      · rw [bumpHits_keys]
        exact h2
      · intro q hq
        obtain ⟨x, hx, rfl⟩ := List.mem_map.mp hq
        by_cases hxk : x.1 = getCacheKey p
        · simpa [hxk] using h3 x hx
        · simpa [hxk] using h3 x hx
    | false =>
      rw [if_neg (by simp)]
      cases inner with
      | ok r =>
        exact updateCache_invariant now (getCacheKey p) r s (getCacheKey_ne_empty p) h1 h2 h3
      | error u => exact ⟨h1, h2, h3⟩
  | none =>
    dsimp only
    cases inner with
    | ok r =>
      exact updateCache_invariant now (getCacheKey p) r s (getCacheKey_ne_empty p) h1 h2 h3
    | error u => exact ⟨h1, h2, h3⟩

/-- Folding cache calls preserves the three-part invariant. -/
lemma cacheRun_invariant (calls : List (ℕ × QueryParams × Except Unit Response)) :
    ∀ s : CacheState,
      s.length ≤ maxCacheSize → ((s.map Prod.fst).Nodup) → (∀ q ∈ s, q.1 ≠ "") →
      (calls.foldl (fun t c => (cacheQuery c.1 c.2.1 c.2.2 t).state) s).length ≤ maxCacheSize := by
  induction calls with
  | nil => intro s h1 _ _; exact h1
  | cons c rest ih =>
    intro s h1 h2 h3
    obtain ⟨h1', h2', h3'⟩ := cacheQuery_invariant c.1 c.2.1 c.2.2 s h1 h2 h3
    exact ih _ h1' h2' h3'

/-- Claim C10: Starting from the empty cache, no sequence of cache calls
(hits, miss-inserts, overwrites, failed inner calls) ever leaves more
than `maxCacheSize` entries in the cache map. -/
theorem cache_size_invariant (calls : List (ℕ × QueryParams × Except Unit Response)) :
    (cacheRun calls).length ≤ maxCacheSize := by
  rw [cacheRun]
  exact cacheRun_invariant calls [] (by simp [maxCacheSize]) (by simp) (by simp)

end VantigeResilience
